import Mathlib

/-!
A verification model of the weighted round-robin (WRR) scheduling class in
`kernel/sched/wrr.c`.

Scheduling entities are identified by natural numbers.  The per-entity WRR
fields (`on_rq`, `time_slice`) and the per-core WRR run queue (`queue`,
`nr_running`, `total_weight`) are gathered in one state record; the entity
weights are static (operator-assigned) and passed as a function parameter.
The intrusive circular `list_head` queue is modelled as a `List Nat` whose
head is the element `list_first_entry_or_null` returns; `list_add_tail`
appends at the back, `list_add` inserts at the front, and `list_move`
deletes its argument and re-inserts it at the front.

Counters are modelled as mathematical integers: `wrr.c` manipulates them
with C integer arithmetic declared in `sched.h`, and `Int` makes both a
signed decrement below zero and an unsigned wrap-around visible as a value
that is no longer the clamped one.  `time_slice` is likewise an `Int`.
-/

namespace Wrr

/-- The constant `WRR_TIMESLICE` (the base timeslice, in ticks) from `wrr.c`. -/
def WRR_TIMESLICE : Int := 10

/-- The constant `UINT_MAX`, the initial value of `min_total_weight` in
`select_task_rq_wrr`. -/
def UINT_MAX : Nat := 4294967295

/-- The WRR state of one core: the run queue of `struct wrr_rq` (front of the
list = head of the queue) with its counters, together with the per-entity
fields of `struct sched_wrr_entity` (`on_rq`, `time_slice`) as functions of
the entity id. -/
structure WrrState where
  queue : List Nat
  on_rq : Nat → Bool
  time_slice : Nat → Int
  nr_running : Int
  total_weight : Int

/-- Function `init_wrr_rq`: the empty run queue, all entities detached. -/
def init_wrr_rq : WrrState :=
  { queue := []
    on_rq := fun _ => false
    time_slice := fun _ => 0
    nr_running := 0
    total_weight := 0 }

/-- Function `on_wrr_rq(wrr_se)`: is the entity on a WRR runqueue. -/
def on_wrr_rq (s : WrrState) (e : Nat) : Bool := s.on_rq e

/-- Function `inc_wrr_tasks`: set `on_rq`, bump `nr_running` and `total_weight`. -/
def inc_wrr_tasks (w : Nat → Int) (e : Nat) (s : WrrState) : WrrState :=
  { s with
    on_rq := Function.update s.on_rq e true
    nr_running := s.nr_running + 1
    total_weight := s.total_weight + w e }

/-- Function `dec_wrr_tasks`: clear `on_rq`, drop `nr_running` and `total_weight`.
The two `WARN_ON`s report, but the decrements run unconditionally. -/
def dec_wrr_tasks (w : Nat → Int) (e : Nat) (s : WrrState) : WrrState :=
  { s with
    on_rq := Function.update s.on_rq e false
    nr_running := s.nr_running - 1
    total_weight := s.total_weight - w e }

/-- Does `dec_wrr_tasks` fire one of its `WARN_ON`s
(`WARN_ON(!wrr_rq->nr_running)`, `WARN_ON(!wrr_rq->total_weight)`)? -/
def dec_wrr_tasks_warns (s : WrrState) : Bool :=
  (s.nr_running == 0) || (s.total_weight == 0)

/-- Function `enqueue_task_wrr`: no-op when already on the queue, else
`list_add_tail` plus `inc_wrr_tasks`.  The `flags` argument (which would
carry `ENQUEUE_HEAD`) is not used by the source. -/
def enqueue_task_wrr (w : Nat → Int) (s : WrrState) (e : Nat) (flags : Int) : WrrState :=
  if on_wrr_rq s e then s
  else inc_wrr_tasks w e { s with queue := s.queue ++ [e] }

/-- Function `dequeue_task_wrr`: no-op when not on the queue, else `list_del_init`
plus `dec_wrr_tasks`. -/
def dequeue_task_wrr (w : Nat → Int) (s : WrrState) (e : Nat) : WrrState :=
  if on_wrr_rq s e then dec_wrr_tasks w e { s with queue := s.queue.erase e }
  else s

/-- Does a `dequeue_task_wrr` call fire a `WARN_ON` report. -/
def dequeue_task_wrr_warns (s : WrrState) (e : Nat) : Bool :=
  on_wrr_rq s e && dec_wrr_tasks_warns s

/-- Function `requeue_task_wrr`: no-op when not on the queue, else
`list_move(&wrr_se->run_list, &wrr_rq->queue)`, which unlinks the entity and
re-inserts it at the FRONT of the queue (`list_move` adds at the head;
`list_move_tail` would add at the tail). -/
def requeue_task_wrr (s : WrrState) (e : Nat) : WrrState :=
  if on_wrr_rq s e then { s with queue := e :: s.queue.erase e }
  else s

/-- Function `yield_task_wrr`: requeue the running task `rq->curr`. -/
def yield_task_wrr (s : WrrState) (curr : Nat) : WrrState :=
  requeue_task_wrr s curr

/-- Function `put_prev_task_wrr`: requeue the previously running task. -/
def put_prev_task_wrr (s : WrrState) (prev : Nat) : WrrState :=
  requeue_task_wrr s prev

/-- Function `pick_next_task_wrr`: first `put_prev_task(rq, prev)` (which for a WRR
`prev` is `put_prev_task_wrr`), then return `list_first_entry_or_null` of
the queue. -/
def pick_next_task_wrr (s : WrrState) (prev : Nat) : WrrState × Option Nat :=
  let s1 := put_prev_task_wrr s prev
  (s1, s1.queue.head?)

/-- Write one entity's `time_slice` field. -/
def set_time_slice (s : WrrState) (e : Nat) (v : Int) : WrrState :=
  { s with time_slice := Function.update s.time_slice e v }

/-- The test `wrr_se->run_list.prev != wrr_se->run_list.next` in
`task_tick_wrr`: an unlinked node (after `list_del_init` or
`INIT_LIST_HEAD`) has `prev = next = self`, and a node linked into the
circular queue list (queue head node plus one node per queued entity) has
`prev ≠ next` exactly when the circle has at least three nodes, i.e. when
the entity is in the queue together with at least one other entity. -/
def run_list_prev_ne_next (s : WrrState) (e : Nat) : Bool :=
  s.queue.contains e && decide (2 ≤ s.queue.length)

/-- Function `task_tick_wrr(rq, p, queued)` for an entity `e` of a task whose policy
is `SCHED_WRR` iff `wrrPolicy`.  Returns the new state and whether
`resched_curr` was requested.  Line for line:

* `if (--wrr_se->time_slice) update_curr_wrr(rq);` — the first decrement;
  `update_curr_wrr` only touches exec-time statistics outside this model.
* `if (p->policy != SCHED_WRR) return;` — after the first decrement.
* `if (--wrr_se->time_slice) { return; }` — the second decrement.
* reset `time_slice = weight * WRR_TIMESLICE`.
* if `run_list.prev != run_list.next`, requeue and `resched_curr`. -/
def task_tick_wrr (w : Nat → Int) (s : WrrState) (e : Nat) (wrrPolicy : Bool) :
    WrrState × Bool :=
  let s1 := set_time_slice s e (s.time_slice e - 1)
  if !wrrPolicy then (s1, false)
  else if s1.time_slice e - 1 ≠ 0 then (set_time_slice s1 e (s1.time_slice e - 1), false)
  else
    let s2 := set_time_slice s1 e (w e * WRR_TIMESLICE)
    if run_list_prev_ne_next s2 e then (requeue_task_wrr s2 e, true)
    else (s2, false)

/-- Iterate `task_tick_wrr` on one running WRR entity. -/
def tick_run (w : Nat → Int) (e : Nat) (s : WrrState) : Nat → WrrState
  | 0 => s
  | n + 1 => (task_tick_wrr w (tick_run w e s n) e true).1

/-- Function `get_rr_interval_wrr`: the nominal timeslice, `weight * WRR_TIMESLICE`. -/
def get_rr_interval_wrr (w : Nat → Int) (e : Nat) : Int :=
  w e * WRR_TIMESLICE

/-- One step of the scan in `select_task_rq_wrr`: the accumulator is
`(min_cpu_index, min_total_weight)`; a CPU allowed by `p->cpus_allowed`
whose `total_weight` is strictly below the current minimum replaces it. -/
def select_step (allowed : Nat → Bool) (tw : Nat → Nat) (acc : Int × Nat) (c : Nat) :
    Int × Nat :=
  if allowed c && decide (tw c < acc.2) then ((c : Int), tw c) else acc

/-- Function `select_task_rq_wrr`: scan the online CPUs (listed in ascending index
order) starting from `min_cpu_index = -1`, `min_total_weight = UINT_MAX`,
and return `min_cpu_index`. -/
def select_task_rq_wrr (cores : List Nat) (allowed : Nat → Bool) (tw : Nat → Nat) : Int :=
  (cores.foldl (select_step allowed tw) (-1, UINT_MAX)).1

/-- Keep the earlier of two cores unless the later one has strictly smaller
total weight (the left-to-right minimum step of the spec-side selection). -/
def spec_min_step (tw : Nat → Nat) (b c : Nat) : Nat :=
  if tw c < tw b then c else b

/-- The core selection as §4.3 of the spec words it: among the online cores
permitted by the affinity mask, the one whose run queue has the smallest
`total_weight`, ties broken by lowest core index (the online cores are
listed in ascending index order); `-1` ("no eligible core") when the mask
permits none. -/
def select_initial_core_spec (cores : List Nat) (allowed : Nat → Bool) (tw : Nat → Nat) :
    Int :=
  match cores.filter allowed with
  | [] => -1
  | c :: rest => ((rest.foldl (spec_min_step tw) c : Nat) : Int)

/-- One step of the candidate scan in `load_balance_wrr` over the entities
queued on the most-loaded core.  The accumulator is
`(max_weight, wrr_se_max)`; an entity is examined only when its weight
exceeds the current `max_weight`, and is then skipped when it is the
running task of the core, when moving it would not keep
`min + w < max - w`, or when its affinity mask forbids the least-loaded
core. -/
def lb_step (w : Nat → Int) (curr : Nat) (minSum maxSum : Int) (allowed : Nat → Bool)
    (acc : Int × Option Nat) (e : Nat) : Int × Option Nat :=
  if decide (acc.1 < w e) then
    if e = curr then acc
    else if decide (minSum + w e ≥ maxSum - w e) then acc
    else if !allowed e then acc
    else (w e, some e)
  else acc

/-- The candidate-selection phase of `load_balance_wrr` (lines 377-410):
scan the queue of the most-loaded core with `max_weight = -1`,
`wrr_se_max = NULL`, and return `wrr_se_max` (`none` means the pass aborts
without migrating). -/
def load_balance_select (w : Nat → Int) (queue : List Nat) (curr : Nat)
    (minSum maxSum : Int) (allowed : Nat → Bool) : Option Nat :=
  (queue.foldl (lb_step w curr minSum maxSum allowed) (-1, none)).2

/-- The three migration constraints of §4.4 on a candidate entity: (a) not
the running task of the most-loaded core, (b)
`min_core.total_weight + weight < max_core.total_weight - weight`, (c) the
affinity mask permits the least-loaded core. -/
def CanMigrate (w : Nat → Int) (curr : Nat) (minSum maxSum : Int) (allowed : Nat → Bool)
    (e : Nat) : Prop :=
  e ≠ curr ∧ minSum + w e < maxSum - w e ∧ allowed e = true

/-- Soundness of the candidate-scan accumulator after the entities in `S`
have been examined: either nothing was selected and no entity of `S` may
migrate, or the selected entity is a migratable entity of `S` of maximal
weight among the migratable ones, and `max_weight` is its weight. -/
def LbAcc (w : Nat → Int) (curr : Nat) (minSum maxSum : Int) (allowed : Nat → Bool)
    (S : List Nat) (acc : Int × Option Nat) : Prop :=
  (acc = (-1, none) ∧ ∀ e ∈ S, ¬CanMigrate w curr minSum maxSum allowed e) ∨
  (∃ b, acc = (w b, some b) ∧ b ∈ S ∧ CanMigrate w curr minSum maxSum allowed b ∧
    ∀ e ∈ S, CanMigrate w curr minSum maxSum allowed e → w e ≤ w b)

/-- The WRR policy-engine operations on one run queue, for invariant
statements over operation sequences. -/
inductive SchedOp where
  | enqueue (e : Nat) (flags : Int)
  | dequeue (e : Nat)
  | requeue (e : Nat)

/-- Apply one operation. -/
def SchedOp.apply (w : Nat → Int) (s : WrrState) : SchedOp → WrrState
  | .enqueue e flags => enqueue_task_wrr w s e flags
  | .dequeue e => dequeue_task_wrr w s e
  | .requeue e => requeue_task_wrr s e

/-- Run a sequence of operations from the freshly initialized state. -/
def runOps (w : Nat → Int) (ops : List SchedOp) : WrrState :=
  ops.foldl (SchedOp.apply w) init_wrr_rq

/-- The sum of the weights of the currently queued entities. -/
def queuedWeight (w : Nat → Int) (s : WrrState) : Int :=
  (s.queue.map w).sum

/-- The run-queue representation invariant: the queue has no duplicates,
`on_rq` marks exactly the queued entities, and the counters agree with the
queue. -/
structure Inv (w : Nat → Int) (s : WrrState) : Prop where
  nodup : s.queue.Nodup
  mem_iff : ∀ e, s.on_rq e = true ↔ e ∈ s.queue
  count : s.nr_running = s.queue.length
  weight : s.total_weight = queuedWeight w s

/-- Weight assignment giving every entity weight 1. -/
def unitWeight : Nat → Int := fun _ => 1

/-- Weight assignment giving every entity weight 3. -/
def threeWeight : Nat → Int := fun _ => 3

/-- A queue holding entities 0 and 1 (0 at the head); entity 0 runs with a
fresh weight-1 timeslice of `1 * WRR_TIMESLICE = 10` ticks. -/
def twoQueued : WrrState :=
  { queue := [0, 1]
    on_rq := fun n => decide (n < 2)
    time_slice := fun n => if n = 0 then 10 else 20
    nr_running := 2
    total_weight := 2 }

/-- A queue holding entities 1 and 0, in that order (1 at the head). -/
def twoQueuedRev : WrrState :=
  { queue := [1, 0]
    on_rq := fun n => decide (n < 2)
    time_slice := fun n => if n = 0 then 10 else 20
    nr_running := 2
    total_weight := 2 }

/-- A queue holding only entity 0. -/
def oneQueued : WrrState :=
  { queue := [0]
    on_rq := fun n => n == 0
    time_slice := fun _ => 10
    nr_running := 1
    total_weight := 1 }

/-- An invariant-violating state: entity 0 is marked `on_rq` while the
counters are already zero. -/
def badState : WrrState :=
  { queue := []
    on_rq := fun n => n == 0
    time_slice := fun _ => 0
    nr_running := 0
    total_weight := 0 }

/-- A sample operation sequence: enqueue 0 and 1, dequeue 0, requeue 1. -/
def opsExample : List SchedOp :=
  [SchedOp.enqueue 0 0, SchedOp.enqueue 1 0, SchedOp.dequeue 0, SchedOp.requeue 1]

/-- Weight assignment for the load-balancing scenario of §8: entity 0 has
weight 3, every other entity weight 1. -/
def lbWeight : Nat → Int := fun n => if n = 0 then 3 else 1

lemma time_slice_set (s : WrrState) (e : Nat) (v : Int) :
    (set_time_slice s e v).time_slice e = v := by
  simp [set_time_slice]

lemma set_time_slice_set (s : WrrState) (e : Nat) (a b : Int) :
    set_time_slice (set_time_slice s e a) e b = set_time_slice s e b := by
  simp [set_time_slice, Function.update_idem]

lemma run_list_set (s : WrrState) (e x : Nat) (v : Int) :
    run_list_prev_ne_next (set_time_slice s e v) x = run_list_prev_ne_next s x := rfl

lemma queue_set (s : WrrState) (e : Nat) (v : Int) :
    (set_time_slice s e v).queue = s.queue := rfl

/-- Reduction of `task_tick_wrr` for a `SCHED_WRR` task: the slice is
decremented twice; on expiry it is reset and the entity requeued exactly
when its `run_list` node has distinct neighbours. -/
lemma task_tick_wrr_true (w : Nat → Int) (s : WrrState) (e : Nat) :
    task_tick_wrr w s e true =
      if s.time_slice e - 1 - 1 = 0 then
        if run_list_prev_ne_next s e then
          (requeue_task_wrr (set_time_slice s e (w e * WRR_TIMESLICE)) e, true)
        else (set_time_slice s e (w e * WRR_TIMESLICE), false)
      else (set_time_slice s e (s.time_slice e - 1 - 1), false) := by
  simp only [task_tick_wrr, Bool.not_true, Bool.false_eq_true, if_false,
    time_slice_set, set_time_slice_set, run_list_set, ne_eq, ite_not]

/-- C10. For every state and entity, a tick for a task whose policy is not
`SCHED_WRR` still decrements the task's WRR `time_slice` field by one: the
first `--wrr_se->time_slice` at the top of `task_tick_wrr` runs before the
`p->policy != SCHED_WRR` check, so the WRR per-task state of tasks of other
scheduling classes is mutated (the queue is untouched and no reschedule is
requested). -/
theorem c10_tick_decrements_foreign_policy (w : Nat → Int) (s : WrrState) (e : Nat) :
    (task_tick_wrr w s e false).1.time_slice e = s.time_slice e - 1 ∧
    (task_tick_wrr w s e false).1.queue = s.queue ∧
    (task_tick_wrr w s e false).2 = false := by
  refine ⟨?_, rfl, rfl⟩
  simp [task_tick_wrr, set_time_slice]

/-- C1 (the code at the failing input). Entity 0 has weight 1 and a fresh
timeslice of `1 * WRR_TIMESLICE = 10`, and shares the queue with entity 1.
One call to `task_tick_wrr` brings `time_slice` from 10 to 8, not to 9:
the slice is decremented twice per tick (once at line 242, once at line
250).  Consequently the entity reaches expiry and is requeued with a
reschedule request on the 5th tick, with `time_slice` reset to 10 — after
`weight * WRR_TIMESLICE / 2 = 5` ticks, not the `weight * WRR_TIMESLICE =
10` ticks the spec grants. -/
theorem c1_tick_double_decrement :
    (tick_run unitWeight 0 twoQueued 1).time_slice 0 = 8 ∧
    (task_tick_wrr unitWeight (tick_run unitWeight 0 twoQueued 3) 0 true).2 = false ∧
    (task_tick_wrr unitWeight (tick_run unitWeight 0 twoQueued 4) 0 true).2 = true ∧
    (tick_run unitWeight 0 twoQueued 5).time_slice 0 = 10 := by
  decide

/-- C2 (the code at the failing input). On the queue `[1, 0]`,
`requeue_task_wrr` of entity 0 produces `[0, 1]`: `list_move` places the
requeued entity at the head of the queue, not at the tail (`[1, 0]`) the
spec requires; `yield_task_wrr` behaves identically. -/
theorem c2_requeue_places_at_head :
    (requeue_task_wrr twoQueuedRev 0).queue = [0, 1] ∧
    (requeue_task_wrr twoQueuedRev 0).queue ≠ [1, 0] ∧
    (yield_task_wrr twoQueuedRev 0).queue = [0, 1] := by
  decide

/-- C4 counterexample. In the invariant-violating state where entity 0 is
marked queued but both counters are zero, `dequeue_task_wrr` (weight 3)
does fire its `WARN_ON` report, yet still decrements: `nr_running` and
`total_weight` both end strictly below zero, refuting "the counters are
clamped or the update skipped, never underflowed". -/
theorem c4_dequeue_underflow_counterexample :
    dequeue_task_wrr_warns badState 0 = true ∧
    (dequeue_task_wrr threeWeight badState 0).nr_running < 0 ∧
    (dequeue_task_wrr threeWeight badState 0).total_weight < 0 := by
  decide

/-- C4 as amended: invoked on an entity marked queued while `nr_running` is
zero, `dequeue_task_wrr` reports the violation through `WARN_ON` but the
decrements still run unconditionally: `nr_running` drops to `-1` and
`total_weight` drops by the entity's weight. -/
theorem c4_dequeue_warns_and_underflows (w : Nat → Int) (s : WrrState) (e : Nat)
    (h1 : s.on_rq e = true) (h2 : s.nr_running = 0) :
    dequeue_task_wrr_warns s e = true ∧
    (dequeue_task_wrr w s e).nr_running = -1 ∧
    (dequeue_task_wrr w s e).total_weight = s.total_weight - w e := by
  simp [dequeue_task_wrr_warns, on_wrr_rq, dec_wrr_tasks_warns, h1, h2,
    dequeue_task_wrr, dec_wrr_tasks]

/-- C4 witness: the amended statement at the concrete violating state. -/
theorem c4_dequeue_warns_and_underflows_witness :
    dequeue_task_wrr_warns badState 0 = true ∧
    (dequeue_task_wrr unitWeight badState 0).nr_running = -1 ∧
    (dequeue_task_wrr unitWeight badState 0).total_weight =
      badState.total_weight - unitWeight 0 :=
  c4_dequeue_warns_and_underflows unitWeight badState 0 rfl rfl

/-- C7 counterexample. One online core 0, permitted by the mask, with
`total_weight = UINT_MAX`: the scan starts its minimum at `UINT_MAX` and
uses a strict comparison, so no core is ever selected and `-1` ("no
eligible core") is returned even though a permitted online core exists —
the spec-side selection returns core 0. -/
theorem c7_sentinel_counterexample :
    select_task_rq_wrr [0] (fun _ => true) (fun _ => UINT_MAX) = -1 ∧
    select_initial_core_spec [0] (fun _ => true) (fun _ => UINT_MAX) = 0 := by
  constructor <;> rfl

/-- C8 counterexample. With entities 0 and 1 queued in that order and
`prev = 1`, `pick_next_task_wrr` first runs `put_prev_task`, whose
`requeue_task_wrr` moves entity 1 to the head: the ordered collection
changes from `[0, 1]` to `[1, 0]`, and the call returns entity 1, not the
pre-call head 0 — the call both mutates the queue and does not return the
(pre-call) head. -/
theorem c8_pick_next_mutates_counterexample :
    (pick_next_task_wrr twoQueued 1).1.queue = [1, 0] ∧
    (pick_next_task_wrr twoQueued 1).1.queue ≠ twoQueued.queue ∧
    (pick_next_task_wrr twoQueued 1).2 = some 1 ∧
    twoQueued.queue.head? = some 0 := by
  decide

/-- C9 counterexample. Enqueueing the detached entity 1 with `flags = 0x10`
(the value of `ENQUEUE_HEAD`, a head-placement request) still appends at
the tail: the result is `[0, 1]`, not the head placement `[1, 0]` —
`enqueue_task_wrr` ignores its `flags` argument. -/
theorem c9_enqueue_ignores_head_flag_counterexample :
    (enqueue_task_wrr unitWeight oneQueued 1 16).queue = [0, 1] ∧
    (enqueue_task_wrr unitWeight oneQueued 1 16).queue ≠ [1, 0] := by
  decide

lemma inv_init (w : Nat → Int) : Inv w init_wrr_rq := by
  refine ⟨List.nodup_nil, ?_, rfl, rfl⟩
  intro e
  simp [init_wrr_rq]

lemma inv_enqueue (w : Nat → Int) (s : WrrState) (e : Nat) (flags : Int)
    (h : Inv w s) : Inv w (enqueue_task_wrr w s e flags) := by
  rw [enqueue_task_wrr]
  by_cases hq : on_wrr_rq s e
  · rw [if_pos hq]; exact h
  · rw [if_neg hq]
    have hmem : e ∉ s.queue := fun hm => hq ((h.mem_iff e).mpr hm)
    constructor
    · simp only [inc_wrr_tasks]
      simp [List.nodup_append, h.nodup, hmem]
    · intro x
      rcases eq_or_ne x e with rfl | hne
      · simp [inc_wrr_tasks, Function.update_same]
      · simp [inc_wrr_tasks, Function.update_noteq hne, h.mem_iff x, hne]
    · have hc := h.count
      simp only [inc_wrr_tasks, List.length_append, List.length_singleton]
      push_cast
      omega
    · have hw := h.weight
      simp only [queuedWeight, inc_wrr_tasks, List.map_append, List.sum_append,
        List.map_cons, List.map_nil, List.sum_cons, List.sum_nil] at *
      linarith

lemma inv_dequeue (w : Nat → Int) (s : WrrState) (e : Nat)
    (h : Inv w s) : Inv w (dequeue_task_wrr w s e) := by
  rw [dequeue_task_wrr]
  by_cases hq : on_wrr_rq s e
  · rw [if_pos hq]
    have hmem : e ∈ s.queue := (h.mem_iff e).mp hq
    have hperm : List.Perm s.queue (e :: s.queue.erase e) := List.perm_cons_erase hmem
    constructor
    · exact h.nodup.erase e
    · intro x
      rcases eq_or_ne x e with rfl | hne
      · simp [dec_wrr_tasks, Function.update_same, h.nodup.mem_erase_iff]
      · simp [dec_wrr_tasks, Function.update_noteq hne, h.mem_iff x,
          h.nodup.mem_erase_iff, hne]
    · have hl := hperm.length_eq
      have hc := h.count
      simp only [dec_wrr_tasks, List.length_cons] at *
      omega
    · have hs := (hperm.map w).sum_eq
      have hw := h.weight
      simp only [queuedWeight, dec_wrr_tasks, List.map_cons, List.sum_cons] at *
      linarith
  · rw [if_neg hq]; exact h

lemma inv_requeue (w : Nat → Int) (s : WrrState) (e : Nat)
    (h : Inv w s) : Inv w (requeue_task_wrr s e) := by
  rw [requeue_task_wrr]
  by_cases hq : on_wrr_rq s e
  · rw [if_pos hq]
    have hmem : e ∈ s.queue := (h.mem_iff e).mp hq
    have hperm : List.Perm s.queue (e :: s.queue.erase e) := List.perm_cons_erase hmem
    constructor
    · exact hperm.nodup_iff.mp h.nodup
    · intro x
      rw [show ({ s with queue := e :: s.queue.erase e } : WrrState).on_rq = s.on_rq
        from rfl]
      rw [h.mem_iff x]
      exact hperm.mem_iff
    · have hl := hperm.length_eq
      have hc := h.count
      simp only [List.length_cons] at *
      omega
    · have hs := (hperm.map w).sum_eq
      have hw := h.weight
      simp only [queuedWeight, List.map_cons, List.sum_cons] at *
      linarith
  · rw [if_neg hq]; exact h

lemma inv_apply (w : Nat → Int) (s : WrrState) (op : SchedOp)
    (h : Inv w s) : Inv w (SchedOp.apply w s op) := by
  cases op with
  | enqueue e flags => exact inv_enqueue w s e flags h
  | dequeue e => exact inv_dequeue w s e h
  | requeue e => exact inv_requeue w s e h

lemma inv_foldl (w : Nat → Int) :
    ∀ (ops : List SchedOp) (s : WrrState), Inv w s →
      Inv w (ops.foldl (SchedOp.apply w) s)
  | [], _, h => h
  | op :: ops, s, h => inv_foldl w ops _ (inv_apply w s op h)

lemma inv_runOps (w : Nat → Int) (ops : List SchedOp) : Inv w (runOps w ops) :=
  inv_foldl w ops init_wrr_rq (inv_init w)

lemma sum_map_eq_zero_iff (w : Nat → Int) (l : List Nat) (hw : ∀ e, 0 < w e) :
    (l.map w).sum = 0 ↔ l = [] := by
  constructor
  · intro h0
    by_contra hne
    have hpos : 0 < (l.map w).sum := by
      refine List.sum_pos _ ?_ (by simpa using hne)
      intro x hx
      obtain ⟨a, _, rfl⟩ := List.mem_map.mp hx
      exact hw a
    omega
  · rintro rfl; rfl

/-- C3. After every sequence of enqueue/dequeue/requeue operations on one
run queue (from the freshly initialized state), `total_weight` equals the
sum of the weights of the currently queued entities and `nr_running` equals
their number; with positive weights, `nr_running == 0`, `total_weight == 0`
and emptiness of the ordered collection are all equivalent. -/
theorem c3_counters_match_queue (w : Nat → Int) (ops : List SchedOp)
    (hw : ∀ e, 0 < w e) :
    (runOps w ops).total_weight = queuedWeight w (runOps w ops) ∧
    (runOps w ops).nr_running = (runOps w ops).queue.length ∧
    ((runOps w ops).nr_running = 0 ↔ (runOps w ops).total_weight = 0) ∧
    ((runOps w ops).total_weight = 0 ↔ (runOps w ops).queue = []) := by
  have h := inv_runOps w ops
  have hiff2 : (runOps w ops).total_weight = 0 ↔ (runOps w ops).queue = [] := by
    rw [h.weight, queuedWeight]
    exact sum_map_eq_zero_iff w _ hw
  have hiff1 : (runOps w ops).nr_running = 0 ↔ (runOps w ops).queue = [] := by
    rw [h.count]
    simp [List.length_eq_zero]
  exact ⟨h.weight, h.count, hiff1.trans hiff2.symm, hiff2⟩

/-- C3 witness: the counter invariant at a concrete operation sequence. -/
theorem c3_counters_match_queue_witness :
    (runOps unitWeight opsExample).total_weight =
      queuedWeight unitWeight (runOps unitWeight opsExample) ∧
    (runOps unitWeight opsExample).nr_running =
      (runOps unitWeight opsExample).queue.length ∧
    ((runOps unitWeight opsExample).nr_running = 0 ↔
      (runOps unitWeight opsExample).total_weight = 0) ∧
    ((runOps unitWeight opsExample).total_weight = 0 ↔
      (runOps unitWeight opsExample).queue = []) :=
  c3_counters_match_queue unitWeight opsExample (fun _ => Int.zero_lt_one)

/-- C5. Single-runnable exemption.  When the queue holds exactly the ticking
entity, `task_tick_wrr` never requeues it and never requests a reschedule —
for any remaining slice — and at expiry (the slice reaching zero inside the
call, i.e. entry value 2 under the double decrement) the slice is reset to
`weight * WRR_TIMESLICE` with the queue untouched.  When the entity is
queued together with at least one other entity, expiry triggers both the
requeue and a reschedule request, with the same reset. -/
theorem c5_single_runnable_exemption (w : Nat → Int) (s : WrrState) (e : Nat) :
    (s.queue = [e] →
      (task_tick_wrr w s e true).2 = false ∧
      (task_tick_wrr w s e true).1.queue = s.queue ∧
      (s.time_slice e = 2 →
        (task_tick_wrr w s e true).1.time_slice e = w e * WRR_TIMESLICE)) ∧
    (s.on_rq e = true → e ∈ s.queue → 2 ≤ s.queue.length → s.time_slice e = 2 →
      (task_tick_wrr w s e true).2 = true ∧
      (task_tick_wrr w s e true).1.queue = e :: s.queue.erase e ∧
      (task_tick_wrr w s e true).1.time_slice e = w e * WRR_TIMESLICE) := by
  constructor
  · intro hq
    have hr : run_list_prev_ne_next s e = false := by
      simp [run_list_prev_ne_next, hq]
    rw [task_tick_wrr_true]
    by_cases hts : s.time_slice e - 1 - 1 = 0
    · rw [if_pos hts]
      simp [hr, time_slice_set, queue_set]
    · rw [if_neg hts]
      refine ⟨rfl, rfl, fun h2 => absurd (by omega : s.time_slice e - 1 - 1 = 0) hts⟩
  · intro hon hmem hlen hts
    have hr : run_list_prev_ne_next s e = true := by
      simp [run_list_prev_ne_next, List.elem_iff, hmem, hlen]
    have h0 : s.time_slice e - 1 - 1 = 0 := by omega
    rw [task_tick_wrr_true, if_pos h0, if_pos hr]
    refine ⟨rfl, ?_, ?_⟩
    · simp [requeue_task_wrr, on_wrr_rq, set_time_slice, hon]
    · simp [requeue_task_wrr, on_wrr_rq, set_time_slice, hon, Function.update_same]

lemma select_fold_eq (allowed : Nat → Bool) (tw : Nat → Nat) (l : List Nat) :
    ∀ b : Nat,
      l.foldl (select_step allowed tw) ((b : Int), tw b) =
        ((((l.filter allowed).foldl (spec_min_step tw) b : Nat) : Int),
          tw ((l.filter allowed).foldl (spec_min_step tw) b)) := by
  induction l with
  | nil => intro b; rfl
  | cons c l ih =>
    intro b
    by_cases hc : allowed c
    · rw [List.foldl_cons, List.filter_cons_of_pos (by simpa using hc), List.foldl_cons]
      by_cases hlt : tw c < tw b
      · rw [show select_step allowed tw ((b : Int), tw b) c = ((c : Int), tw c) by
            simp [select_step, hc, hlt],
          show spec_min_step tw b c = c by simp [spec_min_step, hlt]]
        exact ih c
      · rw [show select_step allowed tw ((b : Int), tw b) c = ((b : Int), tw b) by
            simp [select_step, hc, hlt],
          show spec_min_step tw b c = b by simp [spec_min_step, hlt]]
        exact ih b
    · rw [List.foldl_cons, List.filter_cons_of_neg (by simpa using hc),
        show select_step allowed tw ((b : Int), tw b) c = ((b : Int), tw b) by
          simp [select_step, hc]]
      exact ih b

/-- C7 as amended: provided every online core's `total_weight` lies strictly
below the `UINT_MAX` sentinel that seeds the scan, `select_task_rq_wrr`
computes exactly the spec-side selection: the permitted online core of
minimal `total_weight`, ties broken by lowest index, and `-1` ("no eligible
core") when the affinity mask permits no online core.  (Without the
proviso, a permitted core whose `total_weight` equals `UINT_MAX` is never
selected — see the counterexample.) -/
theorem c7_select_matches_spec (cores : List Nat) (allowed : Nat → Bool) (tw : Nat → Nat)
    (h : ∀ c ∈ cores, tw c < UINT_MAX) :
    select_task_rq_wrr cores allowed tw = select_initial_core_spec cores allowed tw := by
  induction cores with
  | nil => rfl
  | cons c l ih =>
    by_cases hc : allowed c
    · have hcw : tw c < UINT_MAX := h c (List.mem_cons_self c l)
      unfold select_task_rq_wrr select_initial_core_spec
      rw [List.foldl_cons,
        show select_step allowed tw (-1, UINT_MAX) c = ((c : Int), tw c) by
          simp [select_step, hc, hcw],
        select_fold_eq allowed tw l c,
        List.filter_cons_of_pos (by simpa using hc)]
    · have hrest := ih fun x hx => h x (List.mem_cons_of_mem c hx)
      unfold select_task_rq_wrr select_initial_core_spec at hrest ⊢
      rw [List.foldl_cons,
        show select_step allowed tw (-1, UINT_MAX) c = (-1, UINT_MAX) by
          simp [select_step, hc],
        List.filter_cons_of_neg (by simpa using hc)]
      exact hrest

/-- C7 witness: the amended statement at three concrete equally loaded
cores (core 0, the lowest index, is selected on both sides). -/
theorem c7_select_matches_spec_witness :
    select_task_rq_wrr [0, 1, 2] (fun _ => true) (fun _ => 5) =
      select_initial_core_spec [0, 1, 2] (fun _ => true) (fun _ => 5) :=
  c7_select_matches_spec [0, 1, 2] (fun _ => true) (fun _ => 5) (by decide)

lemma lb_step_can (w : Nat → Int) (curr : Nat) (minSum maxSum : Int)
    (allowed : Nat → Bool) (acc : Int × Option Nat) (c : Nat)
    (h1 : acc.1 < w c) (hcan : CanMigrate w curr minSum maxSum allowed c) :
    lb_step w curr minSum maxSum allowed acc c = (w c, some c) := by
  obtain ⟨hne, himb, haff⟩ := hcan
  have h2 : ¬(minSum + w c ≥ maxSum - w c) := not_le.mpr himb
  simp [lb_step, h1, hne, h2, haff]

lemma lb_step_low (w : Nat → Int) (curr : Nat) (minSum maxSum : Int)
    (allowed : Nat → Bool) (acc : Int × Option Nat) (c : Nat)
    (h1 : ¬acc.1 < w c) :
    lb_step w curr minSum maxSum allowed acc c = acc := by
  simp [lb_step, h1]

lemma lb_step_not_can (w : Nat → Int) (curr : Nat) (minSum maxSum : Int)
    (allowed : Nat → Bool) (acc : Int × Option Nat) (c : Nat)
    (hcan : ¬CanMigrate w curr minSum maxSum allowed c) :
    lb_step w curr minSum maxSum allowed acc c = acc := by
  unfold CanMigrate at hcan
  push_neg at hcan
  by_cases h1 : acc.1 < w c
  · by_cases h2 : c = curr
    · simp [lb_step, h1, h2]
    · by_cases h3 : minSum + w c ≥ maxSum - w c
      · simp [lb_step, h1, h2, h3]
      · have haff : allowed c = false := by
          cases h : allowed c
          · rfl
          · exact absurd h (hcan h2 (not_le.mp h3))
        simp [lb_step, h1, h2, h3, haff]
  · simp [lb_step, h1]

lemma lb_step_acc (w : Nat → Int) (curr : Nat) (minSum maxSum : Int)
    (allowed : Nat → Bool) (S : List Nat) (acc : Int × Option Nat) (c : Nat)
    (hacc : LbAcc w curr minSum maxSum allowed S acc) (hwc : 0 < w c) :
    LbAcc w curr minSum maxSum allowed (S ++ [c])
      (lb_step w curr minSum maxSum allowed acc c) := by
  by_cases hcan : CanMigrate w curr minSum maxSum allowed c
  · rcases hacc with ⟨rfl, hnone⟩ | ⟨b, rfl, hbS, hbcan, hmax⟩
    · rw [lb_step_can w curr minSum maxSum allowed _ c
        (lt_trans (by norm_num : (-1 : Int) < 0) hwc) hcan]
      refine Or.inr ⟨c, rfl, by simp, hcan, ?_⟩
      intro e he _
      rcases List.mem_append.mp he with heS | hec
      · exact absurd (by assumption) (hnone e heS)
      · rw [List.mem_singleton.mp hec]
    · by_cases hlt : w b < w c
      · rw [lb_step_can w curr minSum maxSum allowed _ c hlt hcan]
        refine Or.inr ⟨c, rfl, by simp, hcan, ?_⟩
        intro e he hecan
        rcases List.mem_append.mp he with heS | hec
        · exact le_trans (hmax e heS hecan) (le_of_lt hlt)
        · rw [List.mem_singleton.mp hec]
      · rw [lb_step_low w curr minSum maxSum allowed _ c hlt]
        refine Or.inr ⟨b, rfl, List.mem_append_left _ hbS, hbcan, ?_⟩
        intro e he hecan
        rcases List.mem_append.mp he with heS | hec
        · exact hmax e heS hecan
        · rw [List.mem_singleton.mp hec]; exact le_of_not_lt hlt
  · rw [lb_step_not_can w curr minSum maxSum allowed acc c hcan]
    rcases hacc with ⟨rfl, hnone⟩ | ⟨b, rfl, hbS, hbcan, hmax⟩
    · refine Or.inl ⟨rfl, ?_⟩
      intro e he
      rcases List.mem_append.mp he with heS | hec
      · exact hnone e heS
      · rw [List.mem_singleton.mp hec]; exact hcan
    · refine Or.inr ⟨b, rfl, List.mem_append_left _ hbS, hbcan, ?_⟩
      intro e he hecan
      rcases List.mem_append.mp he with heS | hec
      · exact hmax e heS hecan
      · exact absurd hecan (List.mem_singleton.mp hec ▸ hcan)

lemma lb_fold_acc (w : Nat → Int) (curr : Nat) (minSum maxSum : Int)
    (allowed : Nat → Bool) (l : List Nat) :
    ∀ (S : List Nat) (acc : Int × Option Nat),
      LbAcc w curr minSum maxSum allowed S acc → (∀ e ∈ l, 0 < w e) →
      LbAcc w curr minSum maxSum allowed (S ++ l)
        (l.foldl (lb_step w curr minSum maxSum allowed) acc) := by
  induction l with
  | nil => intro S acc hacc _; simpa using hacc
  | cons c l ih =>
    intro S acc hacc hw
    rw [List.foldl_cons]
    have h1 := lb_step_acc w curr minSum maxSum allowed S acc c hacc
      (hw c (List.mem_cons_self c l))
    have h2 := ih (S ++ [c]) _ h1 fun e he => hw e (List.mem_cons_of_mem c he)
    simpa [List.append_assoc] using h2

/-- C6. With positive weights, the candidate scan of `load_balance_wrr`
selects, among the entities queued on the most-loaded core, one that (a) is
not that core's running task, (b) keeps `min + w < max - w` after the
hypothetical move, and (c) is allowed on the least-loaded core by its
affinity mask — and its weight is maximal among the entities satisfying all
three constraints; the scan returns `NULL` (so the pass aborts without
migrating) exactly when no queued entity satisfies all three. -/
theorem c6_lb_candidate_heaviest_safe (w : Nat → Int) (queue : List Nat) (curr : Nat)
    (minSum maxSum : Int) (allowed : Nat → Bool)
    (hw : ∀ e ∈ queue, 0 < w e) :
    (∀ b, load_balance_select w queue curr minSum maxSum allowed = some b →
      b ∈ queue ∧ CanMigrate w curr minSum maxSum allowed b ∧
        ∀ e ∈ queue, CanMigrate w curr minSum maxSum allowed e → w e ≤ w b) ∧
    (load_balance_select w queue curr minSum maxSum allowed = none ↔
      ∀ e ∈ queue, ¬CanMigrate w curr minSum maxSum allowed e) := by
  have hinit : LbAcc w curr minSum maxSum allowed [] (-1, none) := Or.inl ⟨rfl, by simp⟩
  have hfold := lb_fold_acc w curr minSum maxSum allowed queue [] (-1, none) hinit hw
  rw [List.nil_append] at hfold
  constructor
  · intro b hb
    rcases hfold with ⟨heq, _⟩ | ⟨b2, heq, hbS, hbcan, hmax⟩
    · unfold load_balance_select at hb
      rw [heq] at hb
      simp at hb
    · unfold load_balance_select at hb
      rw [heq] at hb
      simp only [Option.some.injEq] at hb
      subst hb
      exact ⟨hbS, hbcan, hmax⟩
  · constructor
    · intro hnone
      rcases hfold with ⟨_, hno⟩ | ⟨b2, heq, _, _, _⟩
      · exact hno
      · unfold load_balance_select at hnone
        rw [heq] at hnone
        simp at hnone
    · intro hno
      rcases hfold with ⟨heq, _⟩ | ⟨b2, _, hbS, hbcan, _⟩
      · unfold load_balance_select
        rw [heq]
      · exact absurd hbcan (hno b2 hbS)

/-- C6 witness: the §8 scenario — queue `[0, 1]` with weights 3 and 1,
`min = 0`, `max = 4`: the weight-3 entity fails the anti-inversion check,
so the weight-1 entity is the selected candidate. -/
theorem c6_lb_candidate_heaviest_safe_witness :
    load_balance_select lbWeight [0, 1] 2 0 4 (fun _ => true) = some 1 ∧
    1 ∈ ([0, 1] : List Nat) ∧ CanMigrate lbWeight 2 0 4 (fun _ => true) 1 := by
  have h := c6_lb_candidate_heaviest_safe lbWeight [0, 1] 2 0 4 (fun _ => true)
    (by decide)
  have hsel : load_balance_select lbWeight [0, 1] 2 0 4 (fun _ => true) = some 1 := by
    decide
  exact ⟨hsel, (h.1 1 hsel).1, (h.1 1 hsel).2.1⟩

/-- C8 as amended: `pick_next_task_wrr` leaves `nr_running` and
`total_weight` unchanged and returns the head of the collection after first
requeueing `prev` through `put_prev_task`; a non-queued `prev` leaves the
collection untouched (the pre-call head, or none on an empty queue, is
returned), while a queued `prev` is moved to the head of the collection (a
consequence of `requeue_task_wrr`'s `list_move`) and is itself returned. -/
theorem c8_pick_next_requeues_prev_frame (s : WrrState) (prev : Nat) :
    (pick_next_task_wrr s prev).1.nr_running = s.nr_running ∧
    (pick_next_task_wrr s prev).1.total_weight = s.total_weight ∧
    (pick_next_task_wrr s prev).2 = (pick_next_task_wrr s prev).1.queue.head? ∧
    (s.on_rq prev = false →
      (pick_next_task_wrr s prev).1.queue = s.queue ∧
      (pick_next_task_wrr s prev).2 = s.queue.head?) ∧
    (s.on_rq prev = true →
      (pick_next_task_wrr s prev).1.queue = prev :: s.queue.erase prev ∧
      (pick_next_task_wrr s prev).2 = some prev) := by
  unfold pick_next_task_wrr put_prev_task_wrr requeue_task_wrr on_wrr_rq
  by_cases h : s.on_rq prev = true <;> simp [h]

/-- C9 as amended: `enqueue_task_wrr` inserts a not-yet-queued entity at the
tail of the collection for every value of `flags` (the head-placement
request is ignored: no head-insertion path exists), marks it queued and
bumps both counters; when the entity is already queued the call is a no-op
leaving the whole state unchanged. -/
theorem c9_enqueue_tail_any_flags (w : Nat → Int) (s : WrrState) (e : Nat) (flags : Int) :
    (s.on_rq e = true → enqueue_task_wrr w s e flags = s) ∧
    (s.on_rq e = false →
      (enqueue_task_wrr w s e flags).queue = s.queue ++ [e] ∧
      (enqueue_task_wrr w s e flags).on_rq e = true ∧
      (enqueue_task_wrr w s e flags).nr_running = s.nr_running + 1 ∧
      (enqueue_task_wrr w s e flags).total_weight = s.total_weight + w e) := by
  unfold enqueue_task_wrr on_wrr_rq inc_wrr_tasks
  by_cases h : s.on_rq e = true <;> simp [h, Function.update_same]

end Wrr
